import Mathlib

/-!
Verification of mirzaakhena/common: the logger and transaction helpers.

A shallow embedding of `logger/logger.go` and `transaction/transaction.go`.

Conventions of the embedding

* A Go `string` is a Lean `String`, read as its list of characters. The only
  separator the code searches for is the ASCII character `/`, which never occurs
  inside a multi-byte UTF-8 sequence, so splitting at characters and splitting
  at bytes give the same pieces.
* A Go function that may panic returns `Except Value _`; `Except.error p` is a
  panic with payload `p`.
* Pointers are replaced by explicit state passing: a function that mutates the
  object behind a pointer returns the object's new state.
* The external libraries (`logrus`, `lfshook`, `rotatelogs`, `gorm`, `runtime`)
  are represented by what this repository hands to them and what they keep of
  it: a rotating writer is what `rotatelogs.New` stores (or nil when it reports
  an error), a log call is the entry and level handed to `logrus`, a database
  handle is the trace of operations invoked on it.
-/

namespace Common

/-! ## Go values -/

/-- Equality of results is decidable, so that concrete runs can be evaluated. -/
instance instDecidableEqExcept {ε α : Type} [DecidableEq ε] [DecidableEq α] :
    DecidableEq (Except ε α)
  | .ok a, .ok b => if h : a = b then isTrue (by rw [h]) else isFalse (fun h' => h (by cases h'; rfl))
  | .error a, .error b =>
    if h : a = b then isTrue (by rw [h]) else isFalse (fun h' => h (by cases h'; rfl))
  | .ok _, .error _ => isFalse (fun h => by cases h)
  | .error _, .ok _ => isFalse (fun h => by cases h)

/-- Operations of the database client that this repository invokes. -/
inductive DBOp
  | Begin
  | Commit
  | Rollback
  deriving DecidableEq

/-- The `*gorm.DB` handle, as far as this repository uses it: the operations
invoked on it so far (oldest first) and the errors the client has recorded on it
(`GetErrors`, oldest first). -/
structure DB where
  calls : List DBOp
  errors : List String
  deriving DecidableEq

/-- The `Data` struct of `logger.go`. -/
structure Data where
  ClientIP : String
  Session : String
  UserID : String
  Type_ : String
  deriving DecidableEq

/-- A Go `map[string]string` that is not nil: an association list read with
`List.lookup` (first binding of a key). -/
abbrev StringMap := List (String × String)

/-- A Go interface value (`interface{}`): what a panic carries and what the
untyped parameters of both packages receive. -/
inductive Value
  | nil
  | str (s : String)
  | error (msg : String)
  | runtimeError (msg : String)
  | data (d : Data)
  | stringMap (m : StringMap)
  | gormDB (db : DB)
  deriving DecidableEq

/-! ## package logger -/

namespace Logger

/-- The `logrus` levels. -/
inductive Level
  | PanicLevel
  | FatalLevel
  | ErrorLevel
  | WarnLevel
  | InfoLevel
  | DebugLevel
  deriving DecidableEq

/-- The `nested.Formatter` configuration. -/
structure Formatter where
  NoColors : Bool
  HideKeys : Bool
  TimestampFormat : String
  FieldsOrder : List String
  deriving DecidableEq

/-- One piece of a compiled `strftime` pattern: text written as it stands, or
the conversion named by the character after a `%`. -/
inductive Piece
  | verbatim (text : String)
  | spec (verb : Char)
  deriving DecidableEq

/-- The rotating writer `*rotatelogs.RotateLogs`, as `rotatelogs.New` stores it:
the compiled file name pattern, the link name, the retention and the rotation
period. Durations are `time.Duration` values, signed 64-bit nanosecond counts. -/
structure RotateLogs where
  pattern : List Piece
  linkName : String
  maxAge : Int
  rotationTime : Int
  deriving DecidableEq

/-- The hook built by `lfshook.NewHook`: its writer map and its formatter. A
writer is a pointer and may be nil (`none`). -/
structure Hook where
  writers : List (Level × Option RotateLogs)
  formatter : Formatter
  deriving DecidableEq

/-- The `logrus.Logger`, as far as this package touches it. -/
structure LogrusLogger where
  Formatter : Formatter
  Hooks : List Hook
  deriving DecidableEq

/-- The struct `logrusImpl`; `theLogger` is a pointer and may be nil. -/
structure logrusImpl where
  theLogger : Option LogrusLogger
  useFile : Bool
  deriving DecidableEq

/-- The package-level variables `defaultLogger` and `defaultLoggerOnce`
(`onceDone` is whether the `sync.Once` has already run its function). -/
structure Process where
  onceDone : Bool
  defaultLogger : logrusImpl
  deriving DecidableEq

/-- The package state at program start: zero values. -/
def Process.start : Process :=
  { onceDone := false, defaultLogger := { theLogger := none, useFile := false } }

/-- The result of `logrus.New()`, before `SetFormatter`: no hooks. The formatter
field is overwritten by `GetLog` before anything reads it. -/
def logrusNew (f : Formatter) : LogrusLogger :=
  { Formatter := f, Hooks := [] }

/-- Function `GetLog`: the body of `defaultLoggerOnce.Do` runs when the once has not
fired; the returned pointer is always `&defaultLogger`, so the result is the
package state in which that pointer is read. -/
def GetLog (p : Process) : Process :=
  if p.onceDone then p
  else
    { onceDone := true
      defaultLogger :=
        { theLogger := some (logrusNew
            { NoColors := false
              HideKeys := true
              TimestampFormat := "0102 150405.000"
              FieldsOrder := ["func"] })
          useFile := false } }

/-! ### Caller resolution and the composite field -/

/-- Go `strings.LastIndex` on character lists: the index of the last occurrence of
`substr` in `s`, or `-1`. -/
def lastIndexList (substr : List Char) : List Char → Int
  | [] => if substr = [] then 0 else -1
  | c :: cs =>
    let r := lastIndexList substr cs
    if 0 ≤ r then r + 1
    else if substr.isPrefixOf (c :: cs) then 0
    else -1

/-- Go `strings.LastIndex(s, substr)`. -/
def LastIndex (s substr : String) : Int :=
  lastIndexList substr.data s.data

/-- The slice expression `s[lo:]`: a run-time panic when `lo` is out of range. -/
def sliceFrom (s : String) (lo : Int) : Except Value String :=
  if lo < 0 ∨ (s.length : Int) < lo then
    .error (.runtimeError "slice bounds out of range")
  else
    .ok ⟨s.data.drop lo.toNat⟩

/-- Go `runtime.Caller(skip)` on a call stack given as the full function names of
its frames, innermost first (frame 0 is the function calling `runtime.Caller`):
the frame, or `none` when the stack is not that deep (`ok == false`, `pc == 0`). -/
def runtimeCaller (stack : List String) (skip : Nat) : Option String :=
  stack.get? skip

/-- Go `runtime.FuncForPC(pc).Name()`: the frame's function name; `FuncForPC`
returns nil for an unknown pc and `Name` on nil returns the empty string. -/
def funcForPCName (pc : Option String) : String :=
  pc.getD ""

/-- A `logrus.Entry`: the fields attached to it. -/
structure Entry where
  fields : List (String × String)
  deriving DecidableEq

/-- Call `theLogger.WithField(key, value)`. -/
def WithField (key value : String) : Entry :=
  { fields := [(key, value)] }

/-- One optional segment of the composite field: the buffer after
`if v, ok := data[key]; ok { WriteString(tag); WriteString(v) }`. -/
def writeSegment (buffer : String) (data : StringMap) (key tag : String) : String :=
  match data.lookup key with
  | some v => buffer ++ tag ++ v
  | none => buffer

/-- Method `getLogEntry`, run on the call stack `stack` (frame 0 is `getLogEntry`
itself); `data` is `none` for a nil map. The receiver comes from `GetLog`, so
its `theLogger` is set, and the entry does not depend on the logger's state. -/
def getLogEntry (stack : List String) (data : Option StringMap) : Except Value Entry := do
  let pc := runtimeCaller stack 2
  let funcName := funcForPCName pc
  let buffer := "|FN:"
  let x := LastIndex funcName "/"
  let name ← sliceFrom funcName (x + 1)
  let buffer := buffer ++ name
  match data with
  | none => pure (WithField "info" buffer)
  | some data =>
    let buffer := writeSegment buffer data "clientIP" "|IP:"
    let buffer := writeSegment buffer data "session" "|SS:"
    let buffer := writeSegment buffer data "userId" "|US:"
    let buffer := writeSegment buffer data "types" "|TY:"
    pure (WithField "info" buffer)

/-- What a leveled call hands to `logrus`: the level, the entry, the message
template and its arguments. Level filtering, formatting and the termination that
`Fatalf` and `Panicf` perform after logging belong to `logrus`. -/
structure Record where
  level : Level
  entry : Entry
  description : String
  args : List Value
  deriving DecidableEq

/-- The `info` field of a record. -/
def Record.info (r : Record) : Option String :=
  r.entry.fields.lookup "info"

/-- Runtime name of `getLogEntry`. -/
def fnGetLogEntry : String := "github.com/mirzaakhena/common/logger.(*logrusImpl).getLogEntry"

/-- Runtime name of the leveled method `m`. -/
def fnMethod (m : String) : String := "github.com/mirzaakhena/common/logger.(*logrusImpl)." ++ m

/-- The shared body of the six leveled methods: `l.getLogEntry(nil).<Level>f(description, args...)`.
`callers` is the stack of the code calling the method, innermost first; the
method's frame and `getLogEntry`'s frame are pushed on top of it. The `data`
argument is not used. -/
def leveled (level : Level) (method : String) (callers : List String) (_data : Value)
    (description : String) (args : List Value) : Except Value Record := do
  let entry ← getLogEntry (fnGetLogEntry :: fnMethod method :: callers) none
  pure { level := level, entry := entry, description := description, args := args }

/-- Method `Debug`. -/
def Debug (callers : List String) (data : Value) (description : String) (args : List Value) :
    Except Value Record :=
  leveled .DebugLevel "Debug" callers data description args

/-- Method `Info`. -/
def Info (callers : List String) (data : Value) (description : String) (args : List Value) :
    Except Value Record :=
  leveled .InfoLevel "Info" callers data description args

/-- Method `Warn`. -/
def Warn (callers : List String) (data : Value) (description : String) (args : List Value) :
    Except Value Record :=
  leveled .WarnLevel "Warn" callers data description args

/-- Method `Error`. -/
def Error (callers : List String) (data : Value) (description : String) (args : List Value) :
    Except Value Record :=
  leveled .ErrorLevel "Error" callers data description args

/-- Method `Fatal`. -/
def Fatal (callers : List String) (data : Value) (description : String) (args : List Value) :
    Except Value Record :=
  leveled .FatalLevel "Fatal" callers data description args

/-- Method `Panic`. -/
def Panic (callers : List String) (data : Value) (description : String) (args : List Value) :
    Except Value Record :=
  leveled .PanicLevel "Panic" callers data description args

/-- The six leveled methods, by level. -/
def logAt : Level → List String → Value → String → List Value → Except Value Record
  | .DebugLevel => Debug
  | .InfoLevel => Info
  | .WarnLevel => Warn
  | .ErrorLevel => Error
  | .FatalLevel => Fatal
  | .PanicLevel => Panic

/-! ### The file sink -/

/-- Conversion to a signed 64-bit integer (Go `int` on a 64-bit platform, `int64`,
`time.Duration`): the representative of `x` modulo `2^64` in `[-2^63, 2^63)`. -/
def wrap64 (x : Int) : Int :=
  (x + 2 ^ 63) % 2 ^ 64 - 2 ^ 63

/-- Go `time.Hour`, in nanoseconds. -/
def Hour : Int := 3600000000000

/-- The expression `time.Duration(n*24)*time.Hour` for an `int` n: both
multiplications wrap. -/
def hoursOfDays (n : Int) : Int :=
  wrap64 (wrap64 (n * 24) * Hour)

/-- The conversion characters of the default specification set of the
`strftime` library that `rotatelogs` compiles its pattern with. The properties
below use only that `Y`, `m` and `d` are among them and that `Q` is not. -/
def strftimeVerbs : List Char :=
  ['A', 'a', 'B', 'b', 'C', 'c', 'D', 'd', 'e', 'F', 'H', 'I', 'j', 'k', 'l', 'M', 'm', 'n',
   'p', 'R', 'r', 'S', 'T', 't', 'U', 'u', 'V', 'v', 'W', 'w', 'X', 'x', 'Y', 'y', 'Z', 'z', '%']

/-- The verbatim piece for the text collected so far, if there is any. -/
def flushVerbatim (acc : List Char) : List Piece :=
  if acc = [] then [] else [.verbatim ⟨acc⟩]

/-- Pattern compilation of `strftime.New`, with `acc` the text read since the
last conversion: text up to a `%` is a verbatim piece, the character after a
`%` must be a known conversion, and a `%` at the very end is an error (`none`). -/
def strftimeCompile (acc : List Char) : List Char → Option (List Piece)
  | [] => some (flushVerbatim acc)
  | [c] => if c = '%' then none else some (flushVerbatim (acc ++ [c]))
  | c :: v :: rest =>
    if c = '%' then
      if v ∈ strftimeVerbs then
        (strftimeCompile [] rest).map (fun ps => flushVerbatim acc ++ .spec v :: ps)
      else none
    else strftimeCompile (acc ++ [c]) (v :: rest)

/-- Call `rotatelogs.New(pattern, WithLinkName(l), WithMaxAge(a), WithRotationTime(r))`:
nil with an error (`none`) for a pattern that does not compile; otherwise the
writer, in which a negative duration is replaced by 0 and, no rotation count
being given, a retention of 0 by the default of seven days. -/
def rotatelogsNew (pattern linkName : String) (maxAge rotationTime : Int) : Option RotateLogs :=
  match strftimeCompile [] pattern.data with
  | none => none
  | some pieces =>
    let maxAge := if maxAge < 0 then 0 else maxAge
    let rotationTime := if rotationTime < 0 then 0 else rotationTime
    let maxAge := if maxAge = 0 then 7 * 24 * Hour else maxAge
    some { pattern := pieces, linkName := linkName, maxAge := maxAge,
           rotationTime := rotationTime }

/-- Call `lfshook.NewHook` with the writer map of `WithFile`. -/
def NewHook (writer : Option RotateLogs) (formatter : Formatter) : Hook :=
  { writers :=
      [(.InfoLevel, writer), (.WarnLevel, writer), (.ErrorLevel, writer), (.DebugLevel, writer)]
    formatter := formatter }

/-- Method `logrus.Logger.AddHook`. -/
def LogrusLogger.AddHook (lg : LogrusLogger) (h : Hook) : LogrusLogger :=
  { lg with Hooks := lg.Hooks ++ [h] }

/-- Method `WithFile`, called on the pointer returned by `GetLog` (the receiver is
`&defaultLogger`, the only `logrusImpl` a caller can hold), in package state `p`.
The error of `rotatelogs.New` is dropped: the hook gets the writer or nil. -/
def WithFile (p : Process) (_appsName filename : String) (maxAge : Int) : Except Value Process :=
  if !p.defaultLogger.useFile then
    if maxAge ≤ 0 then
      .error (.str "maxAge should > 0")
    else
      let path := filename ++ ".log"
      let writer := rotatelogsNew ("./logs/" ++ path ++ ".%Y%m%d") path
        (hoursOfDays maxAge) (hoursOfDays 1)
      match p.defaultLogger.theLogger with
      | none => .error (.runtimeError "invalid memory address or nil pointer dereference")
      | some lg =>
        .ok { p with
          defaultLogger :=
            { theLogger := some (lg.AddHook (NewHook writer lg.Formatter))
              useFile := true } }
  else
    .ok p

/-- Whether a call panicked. -/
def panicked {α : Type} : Except Value α → Bool
  | .error _ => true
  | .ok _ => false

/-- The hooks attached to the logger of a package state. -/
def Process.hooks (p : Process) : List Hook :=
  match p.defaultLogger.theLogger with
  | some lg => lg.Hooks
  | none => []

/-- The writers that the hooks of a package state write to, with their levels
dropped. -/
def Process.writers (p : Process) : List (Option RotateLogs) :=
  p.hooks.flatMap (fun h => h.writers.map Prod.snd)

/-- A call into the package from outside. Every method call is made on a value
obtained from `GetLog`. -/
inductive Op
  | getLog
  | withFile (appsName filename : String) (maxAge : Int)
  | log (level : Level) (callers : List String) (data : Value) (description : String)
      (args : List Value)

/-- The package state after one call. A call that panics does so before it
writes to the package state; the leveled methods do not write to it at all. -/
def exec (p : Process) : Op → Process
  | .getLog => GetLog p
  | .withFile a f m =>
    match WithFile (GetLog p) a f m with
    | .ok q => q
    | .error _ => GetLog p
  | .log _ _ _ _ _ => GetLog p

/-- The package state after a sequence of calls. -/
def run (p : Process) (ops : List Op) : Process :=
  ops.foldl exec p

/-- Successive `WithFile` calls, each given as `(appsName, filename, maxAge)`,
stopping at the first panic. -/
def withFiles (p : Process) : List (String × String × Int) → Except Value Process
  | [] => .ok p
  | (a, f, m) :: rest =>
    match WithFile p a f m with
    | .ok q => withFiles q rest
    | .error e => .error e

end Logger

/-! ## package transaction -/

namespace Transaction

/-- Method `gorm.DB.Begin`: a new handle, cloned from the receiver; `e` is the
error the driver reports, if any. -/
def DB.Begin (e : Option String) (s : DB) : DB :=
  { calls := s.calls ++ [.Begin], errors := s.errors ++ e.toList }

/-- Method `gorm.DB.Commit`; `e` is the error the underlying commit reports, if
any, which the client records on the handle. The returned handle is the
receiver. -/
def DB.Commit (e : Option String) (s : DB) : DB :=
  { calls := s.calls ++ [.Commit], errors := s.errors ++ e.toList }

/-- Method `gorm.DB.Rollback`; `e` as for `Commit`. -/
def DB.Rollback (e : Option String) (s : DB) : DB :=
  { calls := s.calls ++ [.Rollback], errors := s.errors ++ e.toList }

/-- The struct `GormTransactionDB`. -/
structure GormTransactionDB where
  DB : DB
  deriving DecidableEq

/-- Function `NewGormTransactionDB`. -/
def NewGormTransactionDB (db : DB) : GormTransactionDB :=
  { DB := db }

/-- Method `GetDB`; `e` is the error the driver reports for `Begin`, if any. -/
def GetDB (g : GormTransactionDB) (e : Option String) (withTransaction : Bool) : Value :=
  if withTransaction then .gormDB (DB.Begin e g.DB)
  else .gormDB g.DB

/-- The type assertion `tx.(*gorm.DB)`: a run-time panic for any other value. -/
def assertGormDB : Value → Except Value DB
  | .gormDB db => .ok db
  | _ => .error (.runtimeError "interface conversion: interface \x7b\x7d is not *gorm.DB")

/-- What the caller of a method without results can see when the call ends: the
value `tx` (the handle it points to may have been written to) and `panicking`,
the payload of the panic in flight when the call ends, `none` when it returned
normally. -/
structure Exec where
  tx : Value
  panicking : Option Value
  deriving DecidableEq

/-- Method `CommitTransaction`; `e` is the error the underlying commit reports.
The result of `Commit()` is dropped. -/
def CommitTransaction (e : Option String) (tx : Value) : Exec :=
  match assertGormDB tx with
  | .ok db => { tx := .gormDB (DB.Commit e db), panicking := none }
  | .error p => { tx := tx, panicking := some p }

/-- Method `RollbackTransaction`; `e` is the error the underlying rollback
reports. The result of `Rollback()` is dropped. -/
def RollbackTransaction (e : Option String) (tx : Value) : Exec :=
  match assertGormDB tx with
  | .ok db => { tx := .gormDB (DB.Rollback e db), panicking := none }
  | .error p => { tx := tx, panicking := some p }

/-- The statement `panic(v)`: the payload put in flight. With `panicnil` (the
behaviour of Go up to 1.20, and of `GODEBUG=panicnil=1` later) a nil argument
stays nil; otherwise it is replaced by a `*runtime.PanicNilError`. -/
def gopanic (panicnil : Bool) (v : Value) : Value :=
  if v = .nil ∧ panicnil = false then
    .runtimeError "panic called with nil argument (obsolete)"
  else v

/-- The builtin `recover()` called directly by a deferred function: the payload
in flight, or nil when the goroutine is not panicking. Panicking stops. -/
def gorecover (panicking : Option Value) : Value :=
  match panicking with
  | some p => p
  | none => .nil

/-- Method `RollbackOnException`, run as the deferred call
(`defer g.RollbackOnException(tx)`) while the goroutine is in state `panicking`;
`e` is the error the underlying rollback reports and `panicnil` the language
setting that `panic(err)` runs under. -/
def RollbackOnException (panicnil : Bool) (e : Option String) (panicking : Option Value)
    (tx : Value) : Exec :=
  let err := gorecover panicking
  if err ≠ .nil then
    match assertGormDB tx with
    | .ok db => { tx := .gormDB (DB.Rollback e db), panicking := some (gopanic panicnil err) }
    | .error p => { tx := tx, panicking := some p }
  else
    { tx := tx, panicking := none }

end Transaction

/-! ## Properties -/

namespace Logger

/-! ### The last path separator -/

/-- What `lastIndexList` returns for the separator `/`: either `-1` when the
separator does not occur, or the position of an occurrence after which it does
not occur again. -/
theorem lastIndexList_slash (s : List Char) :
    (lastIndexList ['/'] s = -1 ∧ '/' ∉ s) ∨
    (0 ≤ lastIndexList ['/'] s ∧ lastIndexList ['/'] s < s.length ∧
      s = s.take (lastIndexList ['/'] s).toNat ++
        '/' :: s.drop ((lastIndexList ['/'] s).toNat + 1) ∧
      '/' ∉ s.drop ((lastIndexList ['/'] s).toNat + 1)) := by
  induction s with
  | nil => left; simp [lastIndexList]
  | cons c cs ih =>
    rcases ih with ⟨h1, h2⟩ | ⟨h1, h2, h3, h4⟩
    · by_cases hc : c = '/'
      · right
        subst hc
        simp [lastIndexList, h1, h2]
      · left
        have hc' : ¬ '/' = c := fun h => hc h.symm
        simp [lastIndexList, h1, h2, hc, hc']
    · right
      have hnat : (lastIndexList ['/'] cs + 1).toNat = (lastIndexList ['/'] cs).toNat + 1 := by
        omega
      have hr : lastIndexList ['/'] (c :: cs) = lastIndexList ['/'] cs + 1 := by
        simp [lastIndexList, h1]
      rw [hr, hnat]
      refine ⟨by omega, by simp only [List.length_cons]; push_cast; omega, ?_, ?_⟩
      · simp only [List.take_succ_cons, List.drop_succ_cons, List.cons_append]
        exact congrArg (c :: ·) h3
      · simpa only [List.drop_succ_cons] using h4

/-- The index `x + 1` at which `getLogEntry` slices is within `[0, len]`. -/
theorem lastIndexList_slash_bounds (s : List Char) :
    -1 ≤ lastIndexList ['/'] s ∧ lastIndexList ['/'] s < s.length := by
  rcases lastIndexList_slash s with ⟨h1, _⟩ | ⟨h1, h2, _, _⟩
  · rw [h1]; constructor <;> omega
  · constructor <;> omega

/-- The slice after the last separator never panics, and the piece it yields is
the part of the name after the last `/`. -/
theorem sliceFrom_lastIndex (s : String) :
    ∃ name : String, sliceFrom s (LastIndex s "/" + 1) = .ok name ∧
      '/' ∉ name.data ∧
      (('/' ∉ s.data ∧ name = s) ∨ ∃ pre : String, s = pre ++ "/" ++ name) := by
  have hb := lastIndexList_slash_bounds s.data
  have hdata : ("/" : String).data = ['/'] := rfl
  have hlen : s.length = s.data.length := rfl
  refine ⟨⟨s.data.drop (LastIndex s "/" + 1).toNat⟩, ?_, ?_, ?_⟩
  · unfold sliceFrom
    rw [if_neg]
    unfold LastIndex
    rw [hdata, hlen]
    omega
  · unfold LastIndex
    rw [hdata]
    rcases lastIndexList_slash s.data with ⟨h1, h2⟩ | ⟨h1, _, _, h4⟩
    · rw [h1]; simpa using h2
    · have : (lastIndexList ['/'] s.data + 1).toNat = (lastIndexList ['/'] s.data).toNat + 1 := by
        omega
      rw [this]; exact h4
  · unfold LastIndex
    rw [hdata]
    rcases lastIndexList_slash s.data with ⟨h1, h2⟩ | ⟨h1, _, h3, _⟩
    · left
      refine ⟨h2, ?_⟩
      rw [h1]
      apply String.ext
      simp
    · right
      have : (lastIndexList ['/'] s.data + 1).toNat = (lastIndexList ['/'] s.data).toNat + 1 := by
        omega
      rw [this]
      refine ⟨⟨s.data.take (lastIndexList ['/'] s.data).toNat⟩, ?_⟩
      apply String.ext
      simp only [String.data_append, hdata, List.append_assoc, List.singleton_append]
      exact h3

/-! ### The composite field -/

/-- With a nil map, `getLogEntry` returns the entry whose only field is `info`,
holding the tag and the piece of the frame name after its last separator. -/
theorem getLogEntry_nil (stack : List String) :
    ∃ name : String,
      sliceFrom (funcForPCName (runtimeCaller stack 2))
        (LastIndex (funcForPCName (runtimeCaller stack 2)) "/" + 1) = .ok name ∧
      getLogEntry stack none = .ok (WithField "info" ("|FN:" ++ name)) := by
  obtain ⟨name, h1, _⟩ := sliceFrom_lastIndex (funcForPCName (runtimeCaller stack 2))
  refine ⟨name, h1, ?_⟩
  unfold getLogEntry
  simp only [h1]
  rfl

/-- Whatever the map, `getLogEntry` returns an entry. -/
theorem getLogEntry_ok (stack : List String) (data : Option StringMap) :
    ∃ e, getLogEntry stack data = .ok e := by
  obtain ⟨name, h1, _⟩ := sliceFrom_lastIndex (funcForPCName (runtimeCaller stack 2))
  unfold getLogEntry
  simp only [h1]
  cases data with
  | none => exact ⟨_, rfl⟩
  | some m => exact ⟨_, rfl⟩

/-- Each leveled method is the shared body at its own level. -/
theorem logAt_eq (level : Level) (callers : List String) (data : Value) (description : String)
    (args : List Value) :
    ∃ method, logAt level callers data description args =
      leveled level method callers data description args := by
  cases level
  · exact ⟨"Panic", rfl⟩
  · exact ⟨"Fatal", rfl⟩
  · exact ⟨"Error", rfl⟩
  · exact ⟨"Warn", rfl⟩
  · exact ⟨"Info", rfl⟩
  · exact ⟨"Debug", rfl⟩

/-- C6: a leveled call made with no context, from a direct caller whose full
runtime name is `s`, hands over a record whose only field is `info`, equal to
`|FN:` followed by the part of `s` after its last `/` (all of `s` when there is
none); that part contains no `/` and nothing follows it. -/
theorem C6_no_context_info (level : Level) (s : String) (rest : List String)
    (description : String) (args : List Value) :
    ∃ (r : Record) (name : String),
      logAt level (s :: rest) .nil description args = .ok r ∧
      r.level = level ∧
      r.info = some ("|FN:" ++ name) ∧
      r.entry.fields = [("info", "|FN:" ++ name)] ∧
      '/' ∉ name.data ∧
      (('/' ∉ s.data ∧ name = s) ∨ ∃ pre : String, s = pre ++ "/" ++ name) := by
  obtain ⟨method, hm⟩ := logAt_eq level (s :: rest) .nil description args
  obtain ⟨name, h1, h2, h3⟩ := sliceFrom_lastIndex s
  have hentry : getLogEntry (fnGetLogEntry :: fnMethod method :: s :: rest) none
      = .ok (WithField "info" ("|FN:" ++ name)) := by
    unfold getLogEntry
    have hf : funcForPCName (runtimeCaller (fnGetLogEntry :: fnMethod method :: s :: rest) 2)
        = s := rfl
    simp only [hf, h1]
    rfl
  refine ⟨⟨level, WithField "info" ("|FN:" ++ name), description, args⟩, name, ?_, rfl, ?_, rfl,
    h2, h3⟩
  · rw [hm]
    unfold leveled
    rw [hentry]
    rfl
  · simp [Record.info, WithField, List.lookup]

/-- C7: building the entry never fails. For every frame name the slice after the
last `/` is within bounds; `getLogEntry` returns an entry for every stack and
map; and a leveled call whose caller frame cannot be resolved (no frame above
the method) still hands over its record, with `info` exactly `|FN:`. -/
theorem C7_entry_never_fails :
    (∀ funcName : String, ∃ name,
      sliceFrom funcName (LastIndex funcName "/" + 1) = .ok name) ∧
    (∀ (stack : List String) (data : Option StringMap), ∃ e, getLogEntry stack data = .ok e) ∧
    (∀ (level : Level) (callers : List String) (data : Value) (description : String)
      (args : List Value), ∃ r, logAt level callers data description args = .ok r) ∧
    (∀ (level : Level) (data : Value) (description : String) (args : List Value),
      (∀ method, runtimeCaller [fnGetLogEntry, fnMethod method] 2 = none) ∧
      ∃ r, logAt level [] data description args = .ok r ∧
        r.info = some "|FN:" ∧ r.entry.fields = [("info", "|FN:")]) := by
  refine ⟨?_, getLogEntry_ok, ?_, ?_⟩
  · intro funcName
    obtain ⟨name, h, _⟩ := sliceFrom_lastIndex funcName
    exact ⟨name, h⟩
  · intro level callers data description args
    obtain ⟨method, hm⟩ := logAt_eq level callers data description args
    obtain ⟨e, he⟩ := getLogEntry_ok (fnGetLogEntry :: fnMethod method :: callers) none
    refine ⟨⟨level, e, description, args⟩, ?_⟩
    rw [hm]
    unfold leveled
    rw [he]
    rfl
  · intro level data description args
    refine ⟨fun _ => rfl, ?_⟩
    cases level <;> exact ⟨_, rfl, rfl, rfl⟩

/-- C1 (the code at the failing input): called from `main.handler` with the
context `clientIP = 10.0.0.1`, `session = sess123`, each of the six leveled
methods hands over the `info` field `|FN:main.handler`, without the `|IP:` and
`|SS:` segments, because it passes nil to `getLogEntry`; `getLogEntry` itself,
given that context on the same stack, builds `|FN:main.handler|IP:10.0.0.1|SS:sess123`. -/
theorem C1_context_dropped :
    (∀ level : Level,
      (logAt level ["main.handler"]
        (.stringMap [("clientIP", "10.0.0.1"), ("session", "sess123")]) "request %s"
        [.str "done"]).map Record.info = .ok (some "|FN:main.handler")) ∧
    getLogEntry [fnGetLogEntry, fnMethod "Info", "main.handler"]
        (some [("clientIP", "10.0.0.1"), ("session", "sess123")])
      = .ok (WithField "info" "|FN:main.handler|IP:10.0.0.1|SS:sess123") := by
  refine ⟨?_, by decide⟩
  intro level
  cases level <;> rfl

/-! ### The file sink -/

/-- Once the file sink is enabled, `WithFile` returns without touching the state,
whatever its arguments. -/
theorem WithFile_enabled (p : Process) (h : p.defaultLogger.useFile = true) (a f : String)
    (m : Int) : WithFile p a f m = .ok p := by
  simp [WithFile, h]

/-- The first valid call on an initialised logger: one hook is appended and
`useFile` is set. -/
theorem WithFile_first (lg : LogrusLogger) (a f : String) (m : Int) (hm : 0 < m) :
    WithFile ⟨true, ⟨some lg, false⟩⟩ a f m =
      .ok ⟨true, ⟨some (lg.AddHook (NewHook
        (rotatelogsNew ("./logs/" ++ (f ++ ".log") ++ ".%Y%m%d") (f ++ ".log")
          (hoursOfDays m) (hoursOfDays 1)) lg.Formatter)), true⟩⟩ := by
  have : ¬ m ≤ 0 := by omega
  simp [WithFile, this]

/-- Later calls in a sequence change nothing once the sink is enabled. -/
theorem withFiles_enabled (p : Process) (h : p.defaultLogger.useFile = true)
    (cs : List (String × String × Int)) : withFiles p cs = .ok p := by
  induction cs with
  | nil => rfl
  | cons c cs ih =>
    obtain ⟨a, f, m⟩ := c
    simp only [withFiles, WithFile_enabled p h, ih]

/-- After `GetLog` the once has fired. -/
theorem GetLog_onceDone (p : Process) : (GetLog p).onceDone = true := by
  unfold GetLog
  split <;> simp_all

/-- A second `GetLog` does not run the construction again. -/
theorem GetLog_of_onceDone (p : Process) (h : p.onceDone = true) : GetLog p = p := by
  simp [GetLog, h]

/-- No call from outside disables the file sink, and every call leaves the once
fired. -/
theorem exec_keeps (p : Process) (op : Op)
    (inv : p.defaultLogger.useFile = true → p.onceDone = true) :
    (exec p op).onceDone = true ∧
    (p.defaultLogger.useFile = true → (exec p op).defaultLogger.useFile = true) := by
  have key : (GetLog p).onceDone = true ∧
      (p.defaultLogger.useFile = true → (GetLog p).defaultLogger.useFile = true) := by
    refine ⟨GetLog_onceDone p, fun h => ?_⟩
    rw [GetLog_of_onceDone p (inv h)]; exact h
  cases op with
  | getLog => exact key
  | log level callers data description args => exact key
  | withFile a f m =>
    simp only [exec]
    cases hu : (GetLog p).defaultLogger.useFile with
    | true =>
      rw [WithFile_enabled _ hu]
      exact ⟨key.1, fun _ => hu⟩
    | false =>
      cases hw : WithFile (GetLog p) a f m with
      | error e => exact ⟨key.1, fun h => by rw [key.2 h] at hu; cases hu⟩
      | ok q =>
        simp only
        unfold WithFile at hw
        simp only [hu, Bool.not_false, if_true] at hw
        split at hw
        · cases hw
        · split at hw
          · cases hw
          · cases hw
            exact ⟨key.1, fun _ => rfl⟩

/-- Along any sequence of calls from a state where the once has fired, an enabled
file sink stays enabled. -/
theorem run_keeps (ops : List Op) (p : Process) (h1 : p.onceDone = true)
    (h2 : p.defaultLogger.useFile = true) :
    (run p ops).onceDone = true ∧ (run p ops).defaultLogger.useFile = true := by
  induction ops generalizing p with
  | nil => exact ⟨h1, h2⟩
  | cons op ops ih =>
    have h := exec_keeps p op (fun _ => h1)
    exact ih (exec p op) h.1 (h.2 h2)

/-- In every state reachable from program start, an enabled file sink implies a
fired once. -/
theorem run_start_inv (ops : List Op) :
    (run Process.start ops).defaultLogger.useFile = true →
      (run Process.start ops).onceDone = true := by
  induction ops using List.reverseRecOn with
  | nil => intro h; cases h
  | append_singleton ops op ih =>
    intro _
    have : run Process.start (ops ++ [op]) = exec (run Process.start ops) op := by
      simp [run, List.foldl_append]
    rw [this]
    exact (exec_keeps _ op ih).1

/-- The value `wrap64 x` is a signed 64-bit integer congruent to `x` modulo `2^64`. -/
theorem wrap64_spec (x : Int) :
    -2 ^ 63 ≤ wrap64 x ∧ wrap64 x < 2 ^ 63 ∧ (2 ^ 64 : Int) ∣ (wrap64 x - x) := by
  unfold wrap64
  refine ⟨by omega, by omega, ?_⟩
  omega

/-- C4, as amended: on an initialised logger, `WithFile` panics exactly when the
file sink is not yet enabled and `maxAge <= 0`; the payload is then the string
`maxAge should > 0`. With the sink enabled it returns for every `maxAge`. -/
theorem C4_withFile_fails_iff (lg : LogrusLogger) (u : Bool) (a f : String) (m : Int) :
    (panicked (WithFile ⟨true, ⟨some lg, u⟩⟩ a f m) = true ↔ (u = false ∧ m ≤ 0)) ∧
    (panicked (WithFile ⟨true, ⟨some lg, u⟩⟩ a f m) = true ↔
      WithFile ⟨true, ⟨some lg, u⟩⟩ a f m = .error (.str "maxAge should > 0")) := by
  cases u with
  | true => simp [WithFile, panicked]
  | false =>
    by_cases hm : m ≤ 0
    · simp [WithFile, panicked, hm]
    · simp [WithFile, panicked, hm]

/-- C4 (counterexample): after one valid call has enabled the file sink, the
calls `WithFile(_, _, 0)` and `WithFile(_, _, -5)` return without panicking. -/
theorem C4_enabled_sink_ignores_maxAge :
    panicked (withFiles (GetLog Process.start) [("svc", "app", 1), ("svc", "app", 0)]) = false ∧
    panicked (withFiles (GetLog Process.start) [("svc", "app", 1), ("svc", "app", -5)]) = false ∧
    panicked (WithFile (GetLog Process.start) "svc" "app" 0) = true := by
  decide

/-- C5: from an initialised logger without file sink, a sequence of one or more
valid `WithFile` calls ends in the state reached by its first call alone: one
hook was appended and `useFile` is set; in that state every further call returns
the state unchanged; and along any sequence of calls from program start, once
`useFile` is true it stays true. On a fresh logger the hook list has length 1. -/
theorem C5_withFile_idempotent (lg : LogrusLogger) (c : String × String × Int)
    (cs : List (String × String × Int)) (hvalid : ∀ d ∈ c :: cs, 0 < d.2.2) :
    (∃ (q : Process) (h : Hook),
      WithFile ⟨true, ⟨some lg, false⟩⟩ c.1 c.2.1 c.2.2 = .ok q ∧
      withFiles ⟨true, ⟨some lg, false⟩⟩ (c :: cs) = .ok q ∧
      q.hooks = lg.Hooks ++ [h] ∧
      q.defaultLogger.useFile = true ∧
      (∀ (a f : String) (m : Int), WithFile q a f m = .ok q)) ∧
    (∃ q : Process, withFiles (GetLog Process.start) (c :: cs) = .ok q ∧ q.hooks.length = 1) ∧
    (∀ pre post : List Op, (run Process.start pre).defaultLogger.useFile = true →
      (run Process.start (pre ++ post)).defaultLogger.useFile = true) := by
  obtain ⟨a, f, m⟩ := c
  have hm : 0 < m := hvalid (a, f, m) (List.mem_cons_self _ _)
  have step : ∀ lg0 : LogrusLogger,
      withFiles ⟨true, ⟨some lg0, false⟩⟩ ((a, f, m) :: cs) =
        WithFile ⟨true, ⟨some lg0, false⟩⟩ a f m := by
    intro lg0
    simp only [withFiles, WithFile_first lg0 a f m hm]
    exact withFiles_enabled _ rfl cs
  have hs : GetLog Process.start = ⟨true, ⟨some (logrusNew
      { NoColors := false, HideKeys := true, TimestampFormat := "0102 150405.000",
        FieldsOrder := ["func"] }), false⟩⟩ := rfl
  refine ⟨⟨_, _, WithFile_first lg a f m hm, ?_, rfl, rfl, ?_⟩, ?_, ?_⟩
  · rw [step, WithFile_first lg a f m hm]
  · intro a' f' m'
    exact WithFile_enabled _ rfl a' f' m'
  · rw [hs, step, WithFile_first _ a f m hm]
    exact ⟨_, rfl, rfl⟩
  · intro pre post h
    have hrun : run Process.start (pre ++ post) = run (run Process.start pre) post := by
      simp [run, List.foldl_append]
    rw [hrun]
    exact (run_keeps post _ (run_start_inv pre h) h).2

/-- C5 (witness): three successive valid calls with different arguments. -/
theorem C5_withFile_idempotent_witness :
    (∀ d ∈ [("svc", "app", (7 : Int)), ("svc", "other", 1), ("x", "app", 30)], 0 < d.2.2) ∧
    ∃ q : Process,
      withFiles (GetLog Process.start) [("svc", "app", 7), ("svc", "other", 1), ("x", "app", 30)]
        = .ok q ∧ q.hooks.length = 1 :=
  ⟨by decide,
    (C5_withFile_idempotent (logrusNew ⟨false, true, "", []⟩) ("svc", "app", 7)
      [("svc", "other", 1), ("x", "app", 30)] (by decide)).2.1⟩

/-! ### The rotating writer -/

/-- A character other than `%` in front of more pattern text joins the verbatim
text collected so far. -/
theorem strftimeCompile_cons (acc : List Char) (c : Char) (t : List Char) (hc : c ≠ '%')
    (ht : t ≠ []) : strftimeCompile acc (c :: t) = strftimeCompile (acc ++ [c]) t := by
  cases t with
  | nil => exact absurd rfl ht
  | cons v rest => simp [strftimeCompile, hc]

/-- Text without `%` in front of `%Y%m%d` compiles to that text, verbatim,
followed by the year, month and day conversions. -/
theorem strftimeCompile_date (l : List Char) (hl : '%' ∉ l) (acc : List Char) :
    strftimeCompile acc (l ++ ['%', 'Y', '%', 'm', '%', 'd']) =
      some (flushVerbatim (acc ++ l) ++ [.spec 'Y', .spec 'm', .spec 'd']) := by
  induction l generalizing acc with
  | nil => simp [strftimeCompile, strftimeVerbs, flushVerbatim]
  | cons c l ih =>
    have hc : c ≠ '%' := fun h => hl (by simp [h])
    have hl' : '%' ∉ l := fun h => hl (List.mem_cons_of_mem _ h)
    rw [List.cons_append, strftimeCompile_cons acc c _ hc (by simp), ih hl']
    simp

/-- For a file name without `%`, the pattern that `WithFile` builds compiles: it
is the text `./logs/<filename>.log.` followed by year, month and day. -/
theorem strftimeCompile_logs (f : String) (hf : '%' ∉ f.data) :
    strftimeCompile [] ("./logs/" ++ (f ++ ".log") ++ ".%Y%m%d").data =
      some [.verbatim ("./logs/" ++ (f ++ ".log.")), .spec 'Y', .spec 'm', .spec 'd'] := by
  have hsplit : ("./logs/" ++ (f ++ ".log") ++ ".%Y%m%d").data =
      ("./logs/".data ++ (f.data ++ ".log.".data)) ++ ['%', 'Y', '%', 'm', '%', 'd'] := by
    simp [String.data_append]
  have hno : '%' ∉ "./logs/".data ++ (f.data ++ ".log.".data) := by
    simp [hf]
  rw [hsplit, strftimeCompile_date _ hno []]
  have hne : "./logs/".data ++ (f.data ++ ".log.".data) ≠ [] := by simp
  have hstr : (⟨"./logs/".data ++ (f.data ++ ".log.".data)⟩ : String) =
      "./logs/" ++ (f ++ ".log.") := by
    apply String.ext
    simp [String.data_append]
  simp only [flushVerbatim, List.nil_append, hne, if_false, hstr, List.singleton_append]

/-- The writer that the first valid `WithFile` call builds for a file name
without `%`, given the duration that the code computes for `maxAge`. -/
theorem rotatelogsNew_logs (f : String) (hf : '%' ∉ f.data) (age : Int) :
    rotatelogsNew ("./logs/" ++ (f ++ ".log") ++ ".%Y%m%d") (f ++ ".log") age (hoursOfDays 1) =
      some { pattern := [.verbatim ("./logs/" ++ (f ++ ".log.")), .spec 'Y', .spec 'm', .spec 'd']
             linkName := f ++ ".log"
             maxAge := if (if age < 0 then 0 else age) = 0 then 7 * 24 * Hour
               else (if age < 0 then 0 else age)
             rotationTime := 24 * 3600000000000 } := by
  have h1 : hoursOfDays 1 = 24 * 3600000000000 := by decide
  unfold rotatelogsNew
  rw [strftimeCompile_logs f hf, h1]
  simp

/-- Within the bound, the duration computed for `maxAge` days is exact and
positive. -/
theorem hoursOfDays_exact (m : Int) (hm : 0 < m) (hbound : m ≤ 106751) :
    hoursOfDays m = m * 24 * 3600000000000 ∧ 0 < hoursOfDays m := by
  have h1 : wrap64 (m * 24) = m * 24 := by
    unfold wrap64
    omega
  have h2 : wrap64 (m * 24 * 3600000000000) = m * 24 * 3600000000000 := by
    unfold wrap64
    omega
  unfold hoursOfDays Hour
  rw [h1, h2]
  constructor
  · rfl
  · omega

/-- A file name with an unknown conversion (`%Q`): `rotatelogs.New` reports an
error, which `WithFile` drops; the hook is attached with nil writers and
`useFile` is set. -/
theorem WithFile_unknown_verb :
    (WithFile (GetLog Process.start) "svc" "app%Q" 1).map
        (fun q => (q.writers, q.defaultLogger.useFile))
      = .ok ([none, none, none, none], true) := by
  decide

/-- C9, as amended: for a file name containing neither `%` nor `/`, the first
valid `WithFile` call on an initialised logger appends one hook whose four
levels share one writer; the writer's file names are the text
`./logs/<filename>.log.` followed by year, month and day, so the files lie
directly in `./logs/` and start with `<filename>.log`; its link name is
`<filename>.log`, a name without directory part and not `./logs/<filename>.log`;
and `appsName` does not enter the result. -/
theorem C9_writer_paths (lg : LogrusLogger) (a f : String) (m : Int) (hm : 0 < m)
    (hpct : '%' ∉ f.data) (hslash : '/' ∉ f.data) :
    ∃ (q : Process) (w : RotateLogs),
      WithFile ⟨true, ⟨some lg, false⟩⟩ a f m = .ok q ∧
      q.hooks = lg.Hooks ++ [NewHook (some w) lg.Formatter] ∧
      (NewHook (some w) lg.Formatter).writers.map Prod.snd = [some w, some w, some w, some w] ∧
      w.pattern = [.verbatim ("./logs/" ++ (f ++ ".log.")), .spec 'Y', .spec 'm', .spec 'd'] ∧
      '/' ∉ (f ++ ".log.").data ∧
      w.linkName = f ++ ".log" ∧
      '/' ∉ w.linkName.data ∧
      w.linkName ≠ "./logs/" ++ f ++ ".log" ∧
      (∀ a' : String, WithFile ⟨true, ⟨some lg, false⟩⟩ a' f m = .ok q) := by
  obtain ⟨w, hw, hpat, hlink⟩ : ∃ w : RotateLogs,
      rotatelogsNew ("./logs/" ++ (f ++ ".log") ++ ".%Y%m%d") (f ++ ".log") (hoursOfDays m)
        (hoursOfDays 1) = some w ∧
      w.pattern = [.verbatim ("./logs/" ++ (f ++ ".log.")), .spec 'Y', .spec 'm', .spec 'd'] ∧
      w.linkName = f ++ ".log" :=
    ⟨_, rotatelogsNew_logs f hpct (hoursOfDays m), rfl, rfl⟩
  refine ⟨⟨true, ⟨some (lg.AddHook (NewHook (some w) lg.Formatter)), true⟩⟩, w, ?_, rfl, rfl,
    hpat, ?_, hlink, ?_, ?_, ?_⟩
  · rw [WithFile_first lg a f m hm, hw]
  · simp [String.data_append, hslash]
  · rw [hlink]
    simp [String.data_append, hslash]
  · rw [hlink]
    intro h
    have hl := congrArg String.length h
    simp [String.length_append] at hl
    have : ("./logs/" : String).length = 7 := by decide
    omega
  · intro a'
    rw [WithFile_first lg a' f m hm, hw]

/-- C9 (witness): the file name `app`, kept for seven days. -/
theorem C9_writer_paths_witness :
    ((0 : Int) < 7 ∧ '%' ∉ "app".data ∧ '/' ∉ "app".data) ∧
    ∃ (q : Process) (w : RotateLogs),
      WithFile ⟨true, ⟨some (logrusNew ⟨false, true, "", []⟩), false⟩⟩ "svc" "app" 7 = .ok q ∧
      w.pattern = [.verbatim ("./logs/" ++ ("app" ++ ".log.")), .spec 'Y', .spec 'm', .spec 'd'] ∧
      w.linkName = "app" ++ ".log" := by
  refine ⟨by decide, ?_⟩
  obtain ⟨q, w, h1, _, _, h4, _, h6, _⟩ :=
    C9_writer_paths (logrusNew ⟨false, true, "", []⟩) "svc" "app" 7 (by decide) (by decide)
      (by decide)
  exact ⟨q, w, h1, h4, h6⟩

/-- C9 (counterexample): for the file name `app` the link name of the writer is
`app.log`, not `./logs/app.log`. -/
theorem C9_link_name_not_under_logs :
    (WithFile (GetLog Process.start) "svc" "app" 7).map
        (fun q => q.writers.map (Option.map (fun w => w.linkName)))
      = .ok [some "app.log", some "app.log", some "app.log", some "app.log"] ∧
    (WithFile (GetLog Process.start) "svc" "app" 7).map
        (fun q => q.writers.map (Option.map (fun w => w.linkName)))
      ≠ .ok [some "./logs/app.log", some "./logs/app.log", some "./logs/app.log",
          some "./logs/app.log"] := by
  decide

/-- C10, as amended: for `0 < maxAge <= 106751` and a file name without `%`, the
first `WithFile` call on an initialised logger appends one hook whose writer has
a retention of exactly `maxAge*24` hours and a rotation period of exactly 24
hours, both in nanoseconds. -/
theorem C10_writer_durations (lg : LogrusLogger) (a f : String) (m : Int) (hm : 0 < m)
    (hbound : m ≤ 106751) (hpct : '%' ∉ f.data) :
    ∃ (q : Process) (w : RotateLogs),
      WithFile ⟨true, ⟨some lg, false⟩⟩ a f m = .ok q ∧
      q.hooks = lg.Hooks ++ [NewHook (some w) lg.Formatter] ∧
      w.maxAge = m * 24 * 3600000000000 ∧
      w.rotationTime = 24 * 3600000000000 := by
  obtain ⟨hexact, hpos⟩ := hoursOfDays_exact m hm hbound
  have h1 : ¬ hoursOfDays m < 0 := by omega
  have h2 : ¬ hoursOfDays m = 0 := by omega
  obtain ⟨w, hw, hage, hrot⟩ : ∃ w : RotateLogs,
      rotatelogsNew ("./logs/" ++ (f ++ ".log") ++ ".%Y%m%d") (f ++ ".log") (hoursOfDays m)
        (hoursOfDays 1) = some w ∧
      w.maxAge = m * 24 * 3600000000000 ∧ w.rotationTime = 24 * 3600000000000 := by
    refine ⟨_, rotatelogsNew_logs f hpct (hoursOfDays m), ?_, rfl⟩
    simp only [h1, h2, if_false]
    exact hexact
  refine ⟨⟨true, ⟨some (lg.AddHook (NewHook (some w) lg.Formatter)), true⟩⟩, w, ?_, rfl, hage,
    hrot⟩
  rw [WithFile_first lg a f m hm, hw]

/-- C10 (witness): seven days are kept for 168 hours. -/
theorem C10_writer_durations_witness :
    ((0 : Int) < 7 ∧ (7 : Int) ≤ 106751 ∧ '%' ∉ "app".data) ∧
    ∃ (q : Process) (w : RotateLogs),
      WithFile ⟨true, ⟨some (logrusNew ⟨false, true, "", []⟩), false⟩⟩ "svc" "app" 7 = .ok q ∧
      w.maxAge = 7 * 24 * 3600000000000 ∧ w.rotationTime = 24 * 3600000000000 := by
  refine ⟨by decide, ?_⟩
  obtain ⟨q, w, h1, _, h3, h4⟩ :=
    C10_writer_durations (logrusNew ⟨false, true, "", []⟩) "svc" "app" 7 (by decide) (by decide)
      (by decide)
  exact ⟨q, w, h1, h3, h4⟩

/-- C10 (counterexample): for `maxAge = 106752` the code computes the duration
`-9223371273709551616` and the writer keeps files for the default of seven days
(604800000000000 ns), which is neither that value nor `106752*24` hours. -/
theorem C10_overflow_default_retention :
    hoursOfDays 106752 = -9223371273709551616 ∧
    (WithFile (GetLog Process.start) "svc" "app" 106752).map
        (fun q => q.writers.map (Option.map (fun w => w.maxAge)))
      = .ok [some 604800000000000, some 604800000000000, some 604800000000000,
          some 604800000000000] ∧
    (604800000000000 : Int) ≠ wrap64 (wrap64 (106752 * 24) * 3600000000000) ∧
    (604800000000000 : Int) ≠ 106752 * 24 * 3600000000000 := by
  decide

end Logger

namespace Transaction

/-- Every value returned by `GetDB` is a `*gorm.DB`. -/
theorem GetDB_isGormDB (g : GormTransactionDB) (eb : Option String) (withTransaction : Bool) :
    ∃ db, GetDB g eb withTransaction = .gormDB db := by
  cases withTransaction
  · exact ⟨_, rfl⟩
  · exact ⟨_, rfl⟩

/-- C2, as amended: with a panic of non-nil payload `p` in flight and a handle
obtained from `GetDB`, the deferred `RollbackOnException` invokes the handle's
`Rollback` exactly once (the handle's trace grows by that one call) and ends
panicking with payload exactly `p`. Where `panic` replaces a nil argument (Go
1.21 and later, by default), no payload in flight is nil. -/
theorem C2_rollback_then_repanic (panicnil : Bool) (g : GormTransactionDB)
    (eb : Option String) (withTransaction : Bool) (e : Option String) (p : Value)
    (hp : p ≠ .nil) :
    (∃ db, GetDB g eb withTransaction = .gormDB db ∧
      RollbackOnException panicnil e (some p) (GetDB g eb withTransaction) =
        { tx := .gormDB { calls := db.calls ++ [.Rollback], errors := db.errors ++ e.toList }
          panicking := some p }) ∧
    (∀ v : Value, gopanic false v ≠ .nil) := by
  obtain ⟨db, hdb⟩ := GetDB_isGormDB g eb withTransaction
  refine ⟨⟨db, hdb, ?_⟩, ?_⟩
  · rw [hdb]
    simp [RollbackOnException, gorecover, assertGormDB, gopanic, DB.Rollback, hp]
  · intro v
    unfold gopanic
    by_cases hv : v = .nil
    · simp [hv]
    · simp [hv]

/-- C2 (witness): the payload `boom` on a freshly begun transaction. -/
theorem C2_rollback_then_repanic_witness :
    Value.str "boom" ≠ .nil ∧
    RollbackOnException false none (some (.str "boom"))
        (GetDB (NewGormTransactionDB ⟨[], []⟩) none true) =
      { tx := .gormDB { calls := [.Begin, .Rollback], errors := [] }
        panicking := some (.str "boom") } := by
  refine ⟨by decide, ?_⟩
  obtain ⟨⟨db, h1, h2⟩, _⟩ :=
    C2_rollback_then_repanic false (NewGormTransactionDB ⟨[], []⟩) none true none (.str "boom")
      (by decide)
  rw [h2]
  have : db = ⟨[.Begin], []⟩ := by
    have h3 : GetDB (NewGormTransactionDB ⟨[], []⟩) none true = .gormDB ⟨[.Begin], []⟩ := rfl
    rw [h3] at h1
    cases h1
    rfl
  rw [this]
  rfl

/-- C2 (counterexample): with a nil payload in flight (`panic(nil)` where a nil
argument stays nil), the deferred `RollbackOnException` on a freshly begun
transaction returns normally: no `Rollback` is invoked and no panic is left in
flight. -/
theorem C2_nil_payload_swallowed :
    gopanic true .nil = .nil ∧
    RollbackOnException true none (some (gopanic true .nil))
        (GetDB (NewGormTransactionDB ⟨[], []⟩) none true) =
      { tx := .gormDB { calls := [.Begin], errors := [] }, panicking := none } := by
  decide

/-- C3, as amended: on a handle obtained from `GetDB`, `CommitTransaction` and
`RollbackTransaction` invoke the underlying operation exactly once and return
normally, with no result and no panic, whether or not the operation reports an
error `e`; the error stays where the database client records it on the handle. -/
theorem C3_results_dropped (g : GormTransactionDB) (eb : Option String)
    (withTransaction : Bool) (e : Option String) :
    ∃ db, GetDB g eb withTransaction = .gormDB db ∧
      CommitTransaction e (GetDB g eb withTransaction) =
        { tx := .gormDB { calls := db.calls ++ [.Commit], errors := db.errors ++ e.toList }
          panicking := none } ∧
      RollbackTransaction e (GetDB g eb withTransaction) =
        { tx := .gormDB { calls := db.calls ++ [.Rollback], errors := db.errors ++ e.toList }
          panicking := none } := by
  obtain ⟨db, hdb⟩ := GetDB_isGormDB g eb withTransaction
  refine ⟨db, hdb, ?_, ?_⟩
  · rw [hdb]; rfl
  · rw [hdb]; rfl

/-- C3 (counterexample): when the underlying commit (rollback) of a freshly begun
transaction reports the error `deadlock`, `CommitTransaction`
(`RollbackTransaction`) ends exactly as it does without error, returning
normally; the methods have no result through which the error could reach the
caller. -/
theorem C3_error_not_surfaced :
    (CommitTransaction (some "deadlock")
        (GetDB (NewGormTransactionDB ⟨[], []⟩) none true)).panicking = none ∧
    (CommitTransaction none
        (GetDB (NewGormTransactionDB ⟨[], []⟩) none true)).panicking = none ∧
    (RollbackTransaction (some "deadlock")
        (GetDB (NewGormTransactionDB ⟨[], []⟩) none true)).panicking = none ∧
    (RollbackTransaction none
        (GetDB (NewGormTransactionDB ⟨[], []⟩) none true)).panicking = none := by
  decide

end Transaction

end Common
